import Mathlib

/-!
Shallow embedding of the copy-trading bot core of the `botform2` repository
(`src/bots/copy_bot.py`, `src/bots/base_bot.py`, `src/database/manager.py`).

Modelling conventions:
* Python floats (money, prices, timestamps) are embedded as rationals `ℚ`;
  the arithmetic in the source is ordinary field arithmetic.
* The persistent ledger store (PostgreSQL, accessed through
  `DatabaseManager`) is a `Store` value holding this bot's row and its
  trade rows; each manager call is a pure function on `Store`, faithful to
  the SQL it issues (filter / sort / limit / update-returning).
* `async` sequencing is ordinary sequential state passing: the claims are
  about a single bot's loop, which is sequential in the source.
* Exceptions are `Option`: `none` marks the path on which Python raises and
  the surrounding `except` handler returns `None`.
* Transaction hashes are `Nat`; trade identifiers are the `ℚ` timestamp the
  source embeds in the id string `"trade_{timestamp}"`.  A logical clock in
  `Sys` stands for `datetime.utcnow()`.
* Ghost fields (`debits`, `credits`, `initial_balance`, `orders`) record the
  wallet mutations and production orders actually performed; they are written
  exactly where `update_paper_wallet_balance` / `place_order` are called and
  nowhere else.
-/

set_option autoImplicit false

namespace BotForm

/-- Trade row as stored in the `trades` table and mirrored in the bot's
in-memory `_active_trades` index (`copy_bot.py` lines 494-510). -/
structure Trade where
  trade_id : ℚ
  bot_id : Nat
  is_paper_trade : Bool
  market_id : String
  market_name : String
  outcome : String
  amount : ℚ
  price : ℚ
  status : String
  opened_at : ℚ
  closed_at : Option ℚ
  exit_price : Option ℚ
  close_value : Option ℚ
  profit_loss : Option ℚ
  source_trade_id : Nat
  target_trade_id : Nat
deriving DecidableEq

/-- Strategy parameters read from `self._parameters` with the defaults of the
property accessors in `copy_bot.py` (copy ratio 0.5, max 500, min 50,
stop-loss 10, max daily loss 1000).  The source's `copy_ratio` parameter is
the `copy_frac` field here. -/
structure Params where
  copy_frac : ℚ
  max_trade_value : ℚ
  min_trade_value : ℚ
  stop_loss_percentage : ℚ
  max_daily_loss : ℚ
deriving DecidableEq

/-- In-memory bot state: `BaseBot.__init__` plus `CopyBot.__init__`.
`task` models whether the polling task is alive; `seen` is the
`_seen_transactions` set, kept in insertion order (oldest first), which
determinizes the source's `set(list(s)[500:])` eviction of the oldest half
(comment at `copy_bot.py` line 218: "Remove oldest half"). -/
structure BotState where
  id : Nat
  params : Params
  status : String
  running : Bool
  task : Bool
  active_trades : List Trade
  seen : List Nat
deriving DecidableEq

/-- The ledger store restricted to one bot: its trade rows, its bot row's
paper wallet balance (`none` = row missing), lifecycle status, note, and
aggregate performance columns.  `insert_fails` makes the next
`record_trade` INSERT raise, modelling a store error. -/
structure Store where
  trades : List Trade
  balance : Option ℚ
  bot_status : String
  bot_note : Option ℚ
  total_trades : Nat
  winning_trades : Nat
  total_profit : ℚ
  total_loss : ℚ
  insert_fails : Bool
deriving DecidableEq

/-- Order request forwarded to the venue by the production path
(`place_order` arguments, `copy_bot.py` lines 544-549). -/
structure OrderReq where
  market_id : String
  outcome : String
  amount : ℚ
  price : ℚ
deriving DecidableEq

/-- Result dictionary returned by a successful open
(`copy_bot.py` line 526). -/
structure OpenResult where
  status : String
  trade_id : ℚ
  amount : ℚ
deriving DecidableEq

/-- Whole-system state: bot, store, logical clock, and ghost accounting of
wallet debits/credits and production orders. -/
structure Sys where
  bot : BotState
  store : Store
  clock : ℚ
  initial_balance : ℚ
  debits : List ℚ
  credits : List ℚ
  orders : List OrderReq
deriving DecidableEq

/-- Trade-open request dictionary built by the poller
(`copy_bot.py` lines 194-203). -/
structure TradeData where
  market_id : String
  outcome : String
  amount : ℚ
  price : ℚ
  source_trade_id : Nat
  target_trade_id : Nat
  market_title : String
deriving DecidableEq

/-- Activity event from the venue's recent-activity feed; `Option` fields
model keys that may be absent from the JSON dictionary. -/
structure Activity where
  txHash : Option Nat
  side : String
  size : Option ℚ
  price : Option ℚ
  conditionId : Option String
  outcome : Option String
  title : Option String
deriving DecidableEq

/-! ## Ledger store operations (`database/manager.py`) -/

/-- Insert a trade into a list sorted by `opened_at` descending. -/
def insertDesc (t : Trade) : List Trade → List Trade
  | [] => [t]
  | u :: us => if u.opened_at ≤ t.opened_at then t :: u :: us else u :: insertDesc t us

/-- Sort trades by `opened_at` descending (the `ORDER BY opened_at DESC` of
`get_bot_trades`). -/
def sortOpenedDesc : List Trade → List Trade
  | [] => []
  | t :: ts => insertDesc t (sortOpenedDesc ts)

/-- `DatabaseManager.get_bot_trades` (lines 335-365): filter this bot's
trades, optionally by status, order by `opened_at` descending, apply the
LIMIT. -/
def get_bot_trades (st : Store) (bid : Nat) (lim : Option Nat) (stat : Option String) : List Trade :=
  let rows := st.trades.filter (fun t =>
    decide (t.bot_id = bid) &&
      match stat with
      | none => true
      | some x => decide (t.status = x))
  let rows := sortOpenedDesc rows
  match lim with
  | none => rows
  | some n => rows.take n

/-- Field set written by the close path's `update_trade` call
(`copy_bot.py` lines 623-629). -/
structure TradeUpdate where
  status : String
  closed_at : ℚ
  exit_price : ℚ
  close_value : ℚ
  profit_loss : ℚ
deriving DecidableEq

/-- Apply a close-path update to a trade row. -/
def applyUpdate (u : TradeUpdate) (t : Trade) : Trade :=
  { t with
    status := u.status
    closed_at := some u.closed_at
    exit_price := some u.exit_price
    close_value := some u.close_value
    profit_loss := some u.profit_loss }

/-- `DatabaseManager.update_trade` (lines 305-333): UPDATE ... WHERE
trade_id = tid RETURNING *; returns the updated row, `none` when no row
matches. -/
def update_trade (st : Store) (tid : ℚ) (u : TradeUpdate) : Store × Option Trade :=
  let trades2 := st.trades.map (fun t => if t.trade_id = tid then applyUpdate u t else t)
  ({ st with trades := trades2 }, trades2.find? (fun t => decide (t.trade_id = tid)))

/-- `DatabaseManager.record_trade` (lines 280-303): INSERT RETURNING *.
`none` models the INSERT raising (store error). -/
def record_trade (st : Store) (t : Trade) : Option (Store × Trade) :=
  if st.insert_fails then none
  else some ({ st with trades := st.trades ++ [t] }, t)

/-- `DatabaseManager.update_bot_performance` (lines 403-448): recompute the
bot row's aggregate counters from its closed trades.  SQL `CASE WHEN
profit_loss > 0` treats NULL as not matching, hence `getD 0`. -/
def update_bot_performance (st : Store) (bid : Nat) : Store :=
  let closed := st.trades.filter (fun t => decide (t.bot_id = bid) && decide (t.status = "closed"))
  { st with
    total_trades := closed.length
    winning_trades := (closed.filter (fun t => decide (0 < t.profit_loss.getD 0))).length
    total_profit := (closed.map (fun t => if 0 < t.profit_loss.getD 0 then t.profit_loss.getD 0 else 0)).foldl (· + ·) 0
    total_loss := (closed.map (fun t => if t.profit_loss.getD 0 < 0 then |t.profit_loss.getD 0| else 0)).foldl (· + ·) 0 }

/-- `update_paper_wallet_balance(_, amt, 'subtract')`: the UPDATE touches the
bot row only when it exists.  The ghost `debits` entry records the performed
debit. -/
def wallet_sub (s : Sys) (amt : ℚ) : Sys :=
  match s.store.balance with
  | none => s
  | some b =>
    { s with
      store := { s.store with balance := some (b - amt) }
      debits := s.debits ++ [amt] }

/-- `update_paper_wallet_balance(_, amt, 'add')`, with the ghost `credits`
entry recording the performed credit. -/
def wallet_add (s : Sys) (amt : ℚ) : Sys :=
  match s.store.balance with
  | none => s
  | some b =>
    { s with
      store := { s.store with balance := some (b + amt) }
      credits := s.credits ++ [amt] }

/-! ## Bot operations (`bots/copy_bot.py`, `bots/base_bot.py`) -/

/-- Look up a trade in the in-memory `_active_trades` index
(`self._active_trades.get(trade_id)`). -/
def findActive (b : BotState) (tid : ℚ) : Option Trade :=
  b.active_trades.find? (fun t => decide (t.trade_id = tid))

/-- Remove a trade from the `_active_trades` index
(`del self._active_trades[trade_id]`). -/
def eraseActive (s : Sys) (tid : ℚ) : Sys :=
  { s with bot := { s.bot with active_trades := s.bot.active_trades.filter (fun t => !decide (t.trade_id = tid)) } }

/-- Sizing logic of `execute_trade` (lines 421-432): scale by the copy
ratio, discard below the minimum, clamp to the maximum. -/
def clamp_amount (p : Params) (original_amount : ℚ) : Option ℚ :=
  let copy_amount := original_amount * p.copy_frac
  if copy_amount < p.min_trade_value then none
  else if p.max_trade_value < copy_amount then some p.max_trade_value
  else some copy_amount

/-- `CopyBot._execute_paper_trade` (lines 441-530): check the wallet, debit
it, insert the open trade row, index it.  A `none` from `record_trade` is
the INSERT raising: the handler returns `None` with the debit already
applied. -/
def execute_paper_trade (s : Sys) (td : TradeData) (amt : ℚ) : Sys × Option OpenResult :=
  match s.store.balance with
  | none => (s, none)
  | some current_balance =>
    if current_balance < amt then (s, none)
    else
      let s1 := wallet_sub s amt
      let market_name := if td.market_title = "" then "Unknown Market" else td.market_title
      let trade : Trade :=
        { trade_id := s1.clock
          bot_id := s1.bot.id
          is_paper_trade := true
          market_id := td.market_id
          market_name := market_name
          outcome := td.outcome
          amount := amt
          price := td.price
          status := "open"
          opened_at := s1.clock
          closed_at := none
          exit_price := none
          close_value := none
          profit_loss := none
          source_trade_id := td.source_trade_id
          target_trade_id := td.target_trade_id }
      match record_trade s1.store trade with
      | none => (s1, none)
      | some (st2, created) =>
        ({ s1 with
            store := st2
            bot := { s1.bot with active_trades := created :: s1.bot.active_trades }
            clock := s1.clock + 1 },
          some { status := "open", trade_id := trade.trade_id, amount := amt })

/-- `CopyBot._execute_production_trade` (lines 532-554): forward the order to
the venue gateway.  The gateway is external; the ghost `orders` list records
the order actually placed and the acknowledgement is returned as-is. -/
def execute_production_trade (s : Sys) (td : TradeData) (amt : ℚ) : Sys × Option OpenResult :=
  ({ s with orders := s.orders ++ [⟨td.market_id, td.outcome, amt, td.price⟩] },
    some { status := "submitted", trade_id := 0, amount := amt })

/-- `CopyBot.execute_trade` (lines 405-439): size the order, then run the
paper or production path depending on the bot mode
(`is_paper_mode` = `status == 'paper'`). -/
def execute_trade (s : Sys) (td : TradeData) : Sys × Option OpenResult :=
  match clamp_amount s.bot.params td.amount with
  | none => (s, none)
  | some amt =>
    if s.bot.status = "paper" then execute_paper_trade s td amt
    else execute_production_trade s td amt

/-- `CopyBot.close_trade` (lines 556-656).  Guard order as in the source:
index membership, ownership, store re-verification (evicting the index entry
on divergence), exit-price range.  `trade.price = 0` is the
`ZeroDivisionError` of `amount / entry_price`, caught by the handler before
any mutation. -/
def close_trade (s : Sys) (tid px : ℚ) : Sys × Option Trade :=
  match findActive s.bot tid with
  | none => (s, none)
  | some trade =>
    if trade.bot_id ≠ s.bot.id then (s, none)
    else
      let db_trade := get_bot_trades s.store s.bot.id (some 1000) (some "open")
      if db_trade.any (fun t => decide (t.trade_id = tid)) = false then
        (eraseActive s tid, none)
      else if px ≤ 0 ∨ 1 < px then (s, none)
      else if trade.price = 0 then (s, none)
      else
        let entry_price := trade.price
        let amount := trade.amount
        let shares := amount / entry_price
        let exit_value := shares * px
        let profit_loss := exit_value - amount
        let upd : TradeUpdate :=
          { status := "closed"
            closed_at := s.clock
            exit_price := px
            close_value := exit_value
            profit_loss := profit_loss }
        let res := update_trade s.store tid upd
        let s2 := { s with store := res.1 }
        let total_return := amount + profit_loss
        let s3 := if 0 < total_return then wallet_add s2 total_return else s2
        let s4 := { s3 with store := update_bot_performance s3.store s3.bot.id }
        let s5 := eraseActive s4 tid
        ({ s5 with clock := s5.clock + 1 }, res.2)

/-- `CopyBot.calculate_unrealized_pnl` (lines 658-680). -/
def calculate_unrealized_pnl (b : BotState) (tid current_price : ℚ) : ℚ :=
  match findActive b tid with
  | none => 0
  | some trade => trade.amount / trade.price * current_price - trade.amount

/-! ## Activity poller and deduplicator (`copy_bot.py` lines 147-224) -/

/-- Mark a transaction hash as seen (`self._seen_transactions.add(tx_hash)`),
appending it in insertion order. -/
def markSeen (b : BotState) (h : Nat) : BotState :=
  if h ∈ b.seen then b else { b with seen := b.seen ++ [h] }

/-- Size cap of the seen set (lines 216-219): when more than 1000 hashes are
tracked, drop the oldest 500 (`set(list(self._seen_transactions)[500:])`,
determinized to insertion order per the source comment "Remove oldest
half"). -/
def capEvict (b : BotState) : BotState :=
  if 1000 < b.seen.length then { b with seen := b.seen.drop 500 } else b

/-- Trade-open request built from an activity event (lines 194-203), with
the dictionary defaults of the source (`activity.get('size', 0)`,
`activity.get('price', 0)`, ...). -/
def trade_data_of (a : Activity) (h : Nat) : TradeData :=
  { market_id := a.conditionId.getD ""
    outcome := a.outcome.getD "Unknown"
    amount := a.size.getD 0
    price := a.price.getD 0
    source_trade_id := h
    target_trade_id := h
    market_title := a.title.getD "Unknown Market" }

/-- Event loop body of `CopyBot._poll_user_activity` (lines 159-221).
For each event in feed order: skip silently without a transaction hash; skip
if already seen; mark seen and skip non-BUY sides; otherwise invoke
`execute_trade`, mark seen regardless of the outcome, and apply the size
cap.  The returned list is the ghost log of transaction hashes for which
`execute_trade` was invoked this cycle. -/
def poll_events : Sys → List Activity → Sys × List Nat
  | s, [] => (s, [])
  | s, a :: rest =>
    match a.txHash with
    | none => poll_events s rest
    | some h =>
      if h ∈ s.bot.seen then poll_events s rest
      else if a.side ≠ "BUY" then poll_events { s with bot := markSeen s.bot h } rest
      else
        let s1 := (execute_trade s (trade_data_of a h)).1
        let s2 := { s1 with bot := capEvict (markSeen s1.bot h) }
        let r := poll_events s2 rest
        (r.1, h :: r.2)

/-- Several poll cycles in sequence, concatenating the ghost invocation
logs. -/
def poll_cycles : Sys → List (List Activity) → Sys × List Nat
  | s, [] => (s, [])
  | s, feed :: feeds =>
    let r := poll_events s feed
    let r2 := poll_cycles r.1 feeds
    (r2.1, r.2 ++ r2.2)

/-! ## Risk monitor (`copy_bot.py` lines 226-297 and 340-403) -/

/-- Per-trade body of the stop-loss pass of `_monitor_positions`
(lines 262-289): fetch the current price (skip the trade when unavailable),
compute the share-based P&L percentage with the source's zero guards, and
queue the trade for forced close when the loss reaches the threshold. -/
def stop_loss_check (p : Params) (priceOf : String → String → Option ℚ) (trade : Trade) :
    Option (ℚ × ℚ × String) :=
  let entry_price := trade.price
  let amount := trade.amount
  match priceOf trade.market_id trade.outcome with
  | none => none
  | some current_price =>
    let shares := if 0 < entry_price then amount / entry_price else 0
    let current_value := shares * current_price
    let pnl := current_value - amount
    let pnl_percentage := if 0 < amount then pnl / amount * 100 else 0
    if pnl_percentage ≤ -p.stop_loss_percentage then
      some (trade.trade_id, current_price, "stop_loss")
    else none

/-- `CopyBot._monitor_positions` (lines 226-297): no-op without open
positions; otherwise queue stop-loss breaches over the active-trade index
and close the queued trades sequentially through `close_trade`.  The
source's SELL-side scan (lines 246-250) builds a set it never consults, so
it has no effect on state and is elided. -/
def monitor_positions (s : Sys) (priceOf : String → String → Option ℚ) : Sys :=
  if s.bot.active_trades.length = 0 then s
  else
    let trades_to_close := s.bot.active_trades.filterMap (stop_loss_check s.bot.params priceOf)
    trades_to_close.foldl (fun acc q => (close_trade acc q.1 q.2.1).1) s

/-- `BaseBot.stop` (lines 93-115): no-op when not running; otherwise clear
the running flag, set status inactive, cancel the polling task. -/
def stop (b : BotState) : BotState :=
  if b.running = false then b
  else { b with running := false, status := "inactive", task := false }

/-- Loss accumulation loop of `_check_daily_loss_limit` (lines 362-384): over
the fetched trades, sum `|profit_loss|` of closed trades whose `closed_at`
is within the window and whose `profit_loss` is negative.  `none` models
`float(None)` raising `TypeError` when a counted closed trade has a NULL
`profit_loss` (the Python loop runs left to right and aborts at the first
such row; since `ℚ` addition is commutative and associative, this structural
recursion computes the same sum and the same `none` cases). -/
def daily_loss_total (cutoff : ℚ) : List Trade → Option ℚ
  | [] => some 0
  | t :: ts =>
    match daily_loss_total cutoff ts with
    | none => none
    | some rest =>
      if t.status = "closed" then
        match t.closed_at with
        | none => some rest
        | some c =>
          if c < cutoff then some rest
          else
            match t.profit_loss with
            | none => none
            | some pnl => if pnl < 0 then some (|pnl| + rest) else some rest
      else some rest

/-- `CopyBot._check_daily_loss_limit` (lines 340-403): fetch the bot's
trades (LIMIT 100), sum the trailing-24-hour losses, and on reaching
`max_daily_loss` stop the bot and persist the inactive status and an
explanatory note carrying the loss figure (`update_bot`, lines 397-400).
The `none` branch is the exception path, swallowed by the handler. -/
def check_daily_loss_limit (s : Sys) (now : ℚ) : Sys :=
  let max_daily_loss := s.bot.params.max_daily_loss
  let all_trades := get_bot_trades s.store s.bot.id (some 100) none
  let daily_cutoff := now - 24
  match daily_loss_total daily_cutoff all_trades with
  | none => s
  | some total_loss =>
    if max_daily_loss ≤ total_loss then
      { s with
        bot := stop s.bot
        store := { s.store with bot_status := "inactive", bot_note := some total_loss } }
    else s

/-! ## Command traces for the conservation claims -/

/-- Sum of a list of rationals (addition on `ℚ` is commutative and
associative, so the fold order of the source loops is immaterial). -/
def sumQ (l : List ℚ) : ℚ := l.sum

/-- Externally triggerable operations of the trading loop that touch the
wallet or the ledger. -/
inductive Cmd where
  | openT : TradeData → Cmd
  | closeT : ℚ → ℚ → Cmd
  | pollT : List Activity → Cmd
  | monitorT : (String → String → Option ℚ) → Cmd
  | limitT : ℚ → Cmd

/-- One step of a command trace. -/
def runCmd (s : Sys) : Cmd → Sys
  | Cmd.openT td => (execute_trade s td).1
  | Cmd.closeT tid px => (close_trade s tid px).1
  | Cmd.pollT feed => (poll_events s feed).1
  | Cmd.monitorT f => monitor_positions s f
  | Cmd.limitT now => check_daily_loss_limit s now

/-- Run a command trace. -/
def run (s : Sys) : List Cmd → Sys
  | [] => s
  | c :: cs => run (runCmd s c) cs

/-- Wallet accounting invariant: whenever the bot row exists, the initial
balance minus the current balance equals total debits minus total
credits. -/
def wallet_invariant (s : Sys) : Prop :=
  ∀ b, s.store.balance = some b → s.initial_balance - b = sumQ s.debits - sumQ s.credits

/-! ## Concrete example states used by witnesses and counterexamples -/

/-- Default strategy parameters of the property accessors
(`copy_bot.py` lines 58-71 and 282, 349). -/
def exampleParams : Params :=
  { copy_frac := 1/2
    max_trade_value := 500
    min_trade_value := 50
    stop_loss_percentage := 10
    max_daily_loss := 1000 }

/-- A freshly started paper-mode bot with an empty index. -/
def exampleBot : BotState :=
  { id := 1, params := exampleParams, status := "paper", running := true, task := true
    active_trades := [], seen := [] }

/-- A store holding this bot's row with a 1000-unit paper wallet and no
trades. -/
def exampleStore : Store :=
  { trades := [], balance := some 1000, bot_status := "paper", bot_note := none
    total_trades := 0, winning_trades := 0, total_profit := 0, total_loss := 0
    insert_fails := false }

/-- Combined example system state. -/
def exampleSys : Sys :=
  { bot := exampleBot, store := exampleStore, clock := 1, initial_balance := 1000
    debits := [], credits := [], orders := [] }

/-- SELL activity event with hash `i`, as the upstream feed reports it. -/
def sellAct (i : Nat) : Activity :=
  { txHash := some i, side := "SELL", size := some 0, price := none
    conditionId := some "m", outcome := some "Yes", title := some "T" }

/-- BUY activity event with hash `i` and size 0 (scaled below the minimum,
so the open attempt is discarded while the hash is still processed). -/
def buyAct (i : Nat) : Activity :=
  { txHash := some i, side := "BUY", size := some 0, price := none
    conditionId := some "m", outcome := some "Yes", title := some "T" }

/-! ## Helper lemmas on the open path -/

/-- Characterization of a successful paper open: the balance was sufficient,
the INSERT succeeded, and the state changed by exactly one debit, one new
open trade row, and one new index entry. -/
theorem paper_open_success (s : Sys) (td : TradeData) (amt : ℚ) (s2 : Sys) (r : OpenResult)
    (h : execute_paper_trade s td amt = (s2, some r)) :
    ∃ b, s.store.balance = some b ∧ ¬ b < amt ∧ s.store.insert_fails = false ∧
      r.status = "open" ∧ r.trade_id = s.clock ∧ r.amount = amt ∧
      ∃ created : Trade,
        created.trade_id = s.clock ∧ created.bot_id = s.bot.id ∧
        created.amount = amt ∧ created.price = td.price ∧ created.status = "open" ∧
        s2.bot.active_trades = created :: s.bot.active_trades ∧
        s2.bot.seen = s.bot.seen ∧ s2.bot.params = s.bot.params ∧
        s2.bot.status = s.bot.status ∧ s2.bot.running = s.bot.running ∧
        s2.store.trades = s.store.trades ++ [created] ∧
        s2.store.balance = some (b - amt) ∧
        s2.debits = s.debits ++ [amt] ∧ s2.credits = s.credits ∧
        s2.initial_balance = s.initial_balance := by
  unfold execute_paper_trade at h
  split at h
  next hb => simp at h
  next b hb =>
    split at h
    next hlt => simp at h
    next hlt =>
      simp only [wallet_sub, hb, record_trade] at h
      by_cases hf : s.store.insert_fails = true
      · rw [if_pos hf] at h
        exact absurd (congrArg Prod.snd h).symm (by simp)
      · rw [if_neg hf] at h
        have h1 := congrArg Prod.fst h
        have h2 := congrArg Prod.snd h
        dsimp only at h1 h2
        injection h2 with h2
        subst h2
        subst h1
        refine ⟨b, hb, hlt, by simpa using hf, rfl, rfl, rfl, ?_⟩
        exact ⟨_, rfl, rfl, rfl, rfl, rfl, rfl, rfl, rfl, rfl, rfl, rfl, rfl, rfl, rfl, rfl⟩

/-- Insufficient paper balance: the open path returns `None` with the state
untouched. -/
theorem paper_open_insufficient (s : Sys) (td : TradeData) (amt b : ℚ)
    (hb : s.store.balance = some b) (hlt : b < amt) :
    execute_paper_trade s td amt = (s, none) := by
  simp only [execute_paper_trade, hb, if_pos hlt]

/-- A produced clamp amount is the observed amount scaled by the copy ratio,
clamped above by `max_trade_value`. -/
theorem clamp_amount_some (p : Params) (a amt : ℚ) (h : clamp_amount p a = some amt) :
    ¬ a * p.copy_frac < p.min_trade_value ∧
      amt = if p.max_trade_value < a * p.copy_frac then p.max_trade_value
            else a * p.copy_frac := by
  unfold clamp_amount at h
  dsimp only at h
  split at h
  next hmin => exact absurd h (by simp)
  next hmin =>
    refine ⟨hmin, ?_⟩
    split at h <;> split <;> simp_all

/-- A produced clamp amount is positive when both trade-value bounds are. -/
theorem clamp_amount_pos (p : Params) (a amt : ℚ) (h : clamp_amount p a = some amt)
    (hmin : 0 < p.min_trade_value) (hmax : 0 < p.max_trade_value) : 0 < amt := by
  obtain ⟨h1, h2⟩ := clamp_amount_some p a amt h
  rcases lt_or_le p.max_trade_value (a * p.copy_frac) with hc | hc
  · rw [h2, if_pos hc]; exact hmax
  · rw [h2, if_neg (not_lt.mpr hc)]
    exact lt_of_lt_of_le hmin (not_lt.mp h1)

/-- The open path never touches the bot's seen set, parameters, lifecycle
fields, or the ghost initial balance. -/
theorem execute_paper_preserves (s : Sys) (td : TradeData) (amt : ℚ) :
    (execute_paper_trade s td amt).1.bot.seen = s.bot.seen ∧
    (execute_paper_trade s td amt).1.bot.params = s.bot.params ∧
    (execute_paper_trade s td amt).1.bot.status = s.bot.status ∧
    (execute_paper_trade s td amt).1.bot.running = s.bot.running ∧
    (execute_paper_trade s td amt).1.bot.id = s.bot.id ∧
    (execute_paper_trade s td amt).1.initial_balance = s.initial_balance ∧
    (execute_paper_trade s td amt).1.credits = s.credits := by
  unfold execute_paper_trade
  split
  · exact ⟨rfl, rfl, rfl, rfl, rfl, rfl, rfl⟩
  next b hb =>
    split
    · exact ⟨rfl, rfl, rfl, rfl, rfl, rfl, rfl⟩
    · simp only [wallet_sub, hb]
      split
      · exact ⟨rfl, rfl, rfl, rfl, rfl, rfl, rfl⟩
      · exact ⟨rfl, rfl, rfl, rfl, rfl, rfl, rfl⟩

/-- Same preservation facts for the whole `execute_trade` dispatcher. -/
theorem execute_trade_preserves (s : Sys) (td : TradeData) :
    (execute_trade s td).1.bot.seen = s.bot.seen ∧
    (execute_trade s td).1.bot.params = s.bot.params ∧
    (execute_trade s td).1.bot.status = s.bot.status ∧
    (execute_trade s td).1.bot.running = s.bot.running ∧
    (execute_trade s td).1.bot.id = s.bot.id ∧
    (execute_trade s td).1.initial_balance = s.initial_balance ∧
    (execute_trade s td).1.credits = s.credits := by
  unfold execute_trade
  split
  · exact ⟨rfl, rfl, rfl, rfl, rfl, rfl, rfl⟩
  next amt hc =>
    split
    · exact execute_paper_preserves s td amt
    · exact ⟨rfl, rfl, rfl, rfl, rfl, rfl, rfl⟩

/-- C4: for a trade-open request with observed amount `a` and ratio `r`, the
engine computes `copy_amount = a * r`; below `min_trade_value` the event is
discarded with no state change, above `max_trade_value` the open proceeds at
exactly `max_trade_value`, and otherwise at exactly `a * r`. -/
theorem claim_c4_sizing (s : Sys) (td : TradeData) :
    (td.amount * s.bot.params.copy_frac < s.bot.params.min_trade_value →
      execute_trade s td = (s, none)) ∧
    (∀ s2 r, execute_trade s td = (s2, some r) →
      r.amount =
        if s.bot.params.max_trade_value < td.amount * s.bot.params.copy_frac
        then s.bot.params.max_trade_value
        else td.amount * s.bot.params.copy_frac) := by
  constructor
  · intro hmin
    simp only [execute_trade, clamp_amount, if_pos hmin]
  · intro s2 r h
    unfold execute_trade at h
    cases hc : clamp_amount s.bot.params td.amount with
    | none => rw [hc] at h; exact absurd (congrArg Prod.snd h).symm (by simp)
    | some amt =>
      simp only [hc] at h
      obtain ⟨-, hamt⟩ := clamp_amount_some _ _ _ hc
      subst hamt
      split at h
      · obtain ⟨b, -, -, -, -, -, hra, -⟩ := paper_open_success _ _ _ _ _ h
        exact hra
      · exact (congrArg (fun x => (x.2.getD ⟨"", 0, 0⟩).amount) h).symm

set_option maxRecDepth 40000 in
set_option maxHeartbeats 1000000 in
/-- C4 witness: with the default parameters, an observed amount of 10 scales
to 5 and is discarded, and an observed amount of 2000 scales to 1000 and is
clamped to the 500 maximum. -/
theorem claim_c4_sizing_witness :
    execute_trade exampleSys ⟨"m", "Yes", 10, 3/5, 7, 7, "T"⟩ = (exampleSys, none) ∧
    OpenResult.amount ⟨"open", 1, 500⟩ =
      (if exampleSys.bot.params.max_trade_value <
          TradeData.amount ⟨"m", "Yes", 2000, 3/5, 7, 7, "T"⟩ * exampleSys.bot.params.copy_frac
       then exampleSys.bot.params.max_trade_value
       else TradeData.amount ⟨"m", "Yes", 2000, 3/5, 7, 7, "T"⟩ * exampleSys.bot.params.copy_frac) :=
  ⟨(claim_c4_sizing exampleSys ⟨"m", "Yes", 10, 3/5, 7, 7, "T"⟩).1 (by with_unfolding_all decide),
    (claim_c4_sizing exampleSys ⟨"m", "Yes", 2000, 3/5, 7, 7, "T"⟩).2
      (execute_trade exampleSys ⟨"m", "Yes", 2000, 3/5, 7, 7, "T"⟩).1 ⟨"open", 1, 500⟩
      (by with_unfolding_all decide)⟩

/-- Marking a hash always puts it in the seen set. -/
theorem mem_markSeen (b : BotState) (h : Nat) : h ∈ (markSeen b h).seen := by
  unfold markSeen
  split
  next hmem => exact hmem
  next hmem => exact List.mem_append.mpr (Or.inr (List.mem_singleton.mpr rfl))

/-- The size cap never evicts the hash that was just appended. -/
theorem mem_capEvict_markSeen (b : BotState) (h : Nat) (hmem : h ∉ b.seen) :
    h ∈ (capEvict (markSeen b h)).seen := by
  unfold markSeen
  rw [if_neg hmem]
  unfold capEvict
  split
  next hlen =>
    have hlen2 : 500 ≤ b.seen.length := by
      simp only [List.length_append, List.length_singleton] at hlen
      omega
    rw [List.drop_append_of_le_length hlen2]
    exact List.mem_append.mpr (Or.inr (List.mem_singleton.mpr rfl))
  next hlen => exact List.mem_append.mpr (Or.inr (List.mem_singleton.mpr rfl))

/-- C8: a paper trade opens only when the balance covers `copy_amount`
(equality suffices, leaving a zero balance); an insufficient balance yields
a null result with no insert and no debit; and the poller marks a BUY
event's transaction hash as seen regardless of the open outcome. -/
theorem claim_c8_paper_open_precondition (s : Sys) (td : TradeData) (amt b : ℚ)
    (hb : s.store.balance = some b) :
    (b < amt → execute_paper_trade s td amt = (s, none)) ∧
    (b = amt → s.store.insert_fails = false →
      (execute_paper_trade s td amt).2.isSome = true ∧
        (execute_paper_trade s td amt).1.store.balance = some 0) ∧
    (∀ a h, a.txHash = some h → a.side = "BUY" → h ∉ s.bot.seen →
      h ∈ (poll_events s [a]).1.bot.seen) := by
  refine ⟨fun hlt => paper_open_insufficient s td amt b hb hlt, ?_, ?_⟩
  · intro hbe hf
    subst hbe
    simp only [execute_paper_trade, hb, lt_irrefl, if_false, wallet_sub, record_trade, hf,
      Bool.false_eq_true, sub_self]
    exact ⟨rfl, trivial⟩
  · intro a h htx hside hseen
    simp only [poll_events, htx]
    rw [if_neg hseen, if_neg (by simp [hside])]
    simp only [poll_events]
    have hs1 : ((execute_trade s (trade_data_of a h)).1).bot.seen = s.bot.seen :=
      (execute_trade_preserves s (trade_data_of a h)).1
    exact mem_capEvict_markSeen _ h (hs1 ▸ hseen)

set_option maxRecDepth 40000 in
set_option maxHeartbeats 1000000 in
/-- C8 witness: with a balance of exactly 100 and an event scaling to a copy
amount of exactly 100, the open succeeds and empties the wallet; a balance
below the copy amount yields a null result with an unchanged state; a
failed BUY event's hash is still marked seen. -/
theorem claim_c8_paper_open_precondition_witness :
    (execute_paper_trade
        { exampleSys with store := { exampleStore with balance := some 100 } }
        ⟨"m", "Yes", 200, 3/5, 7, 7, "T"⟩ 100).2.isSome = true ∧
    (execute_paper_trade
        { exampleSys with store := { exampleStore with balance := some 100 } }
        ⟨"m", "Yes", 200, 3/5, 7, 7, "T"⟩ 100).1.store.balance = some 0 ∧
    execute_paper_trade
        { exampleSys with store := { exampleStore with balance := some 99 } }
        ⟨"m", "Yes", 200, 3/5, 7, 7, "T"⟩ 100 =
      ({ exampleSys with store := { exampleStore with balance := some 99 } }, none) ∧
    7 ∈ (poll_events
        { exampleSys with store := { exampleStore with balance := some 99 } }
        [⟨some 7, "BUY", some 200, some (3/5), some "m", some "Yes", some "T"⟩]).1.bot.seen := by
  have h1 := (claim_c8_paper_open_precondition
    { exampleSys with store := { exampleStore with balance := some 100 } }
    ⟨"m", "Yes", 200, 3/5, 7, 7, "T"⟩ 100 100 rfl).2.1 rfl rfl
  have h2 := (claim_c8_paper_open_precondition
    { exampleSys with store := { exampleStore with balance := some 99 } }
    ⟨"m", "Yes", 200, 3/5, 7, 7, "T"⟩ 100 99 rfl).1 (by with_unfolding_all decide)
  have h3 := (claim_c8_paper_open_precondition
    { exampleSys with store := { exampleStore with balance := some 99 } }
    ⟨"m", "Yes", 200, 3/5, 7, 7, "T"⟩ 100 99 rfl).2.2
    ⟨some 7, "BUY", some 200, some (3/5), some "m", some "Yes", some "T"⟩ 7 rfl rfl
    (by with_unfolding_all decide)
  exact ⟨h1.1, h1.2, h2, h3⟩

/-- C9 counterexample: a BUY event lacking a price field is accepted by the
poller and opens a trade with entry price 0, violating the claimed
price ∈ (0,1] construction invariant. -/
theorem claim_c9_counterexample :
    (poll_events exampleSys
        [⟨some 7, "BUY", some 200, none, some "m", some "Yes", some "T"⟩]).1.bot.active_trades.map
        Trade.price = [0] ∧
    (poll_events exampleSys
        [⟨some 7, "BUY", some 200, none, some "m", some "Yes", some "T"⟩]).1.bot.active_trades.map
        Trade.status = ["open"] := by
  with_unfolding_all decide

/-- C9 amended: every trade record created by the paper open path is open and
carries `amount` equal to the sized copy amount — positive whenever both
trade-value bounds are positive — while its entry `price` is copied verbatim
from the request (0 for a price-less event) with no (0,1] validation. -/
theorem claim_c9_amended_trade_construction (s : Sys) (td : TradeData) (s2 : Sys) (r : OpenResult)
    (hmode : s.bot.status = "paper")
    (h : execute_trade s td = (s2, some r)) :
    ∃ created : Trade,
      s2.bot.active_trades = created :: s.bot.active_trades ∧
      created.status = "open" ∧
      created.price = td.price ∧
      created.amount = r.amount ∧
      (0 < s.bot.params.min_trade_value → 0 < s.bot.params.max_trade_value →
        0 < created.amount) := by
  unfold execute_trade at h
  cases hc : clamp_amount s.bot.params td.amount with
  | none => rw [hc] at h; exact absurd (congrArg Prod.snd h).symm (by simp)
  | some amt =>
    simp only [hc] at h
    rw [if_pos hmode] at h
    obtain ⟨b, -, -, -, -, -, hra, created, -, -, hcamt, hcp, hcst, hact, -⟩ :=
      paper_open_success _ _ _ _ _ h
    refine ⟨created, hact, hcst, hcp, by rw [hcamt, hra], ?_⟩
    intro hmin hmax
    rw [hcamt]
    exact clamp_amount_pos _ _ _ hc hmin hmax

set_option maxRecDepth 40000 in
set_option maxHeartbeats 1000000 in
/-- C9 amended witness: a concrete successful open at entry price 3/5. -/
theorem claim_c9_amended_witness :
    ∃ created : Trade,
      (execute_trade exampleSys ⟨"m", "Yes", 200, 3/5, 7, 7, "T"⟩).1.bot.active_trades =
        created :: exampleSys.bot.active_trades ∧
      created.status = "open" ∧
      created.price = TradeData.price ⟨"m", "Yes", 200, 3/5, 7, 7, "T"⟩ ∧
      created.amount = OpenResult.amount ⟨"open", 1, 100⟩ ∧
      (0 < exampleSys.bot.params.min_trade_value → 0 < exampleSys.bot.params.max_trade_value →
        0 < created.amount) :=
  claim_c9_amended_trade_construction exampleSys ⟨"m", "Yes", 200, 3/5, 7, 7, "T"⟩
    (execute_trade exampleSys ⟨"m", "Yes", 200, 3/5, 7, 7, "T"⟩).1 ⟨"open", 1, 100⟩
    rfl (by with_unfolding_all decide)

/-- C10: the paper open path debits the wallet before inserting the trade
row; when the INSERT raises, `execute_trade` returns null but the debit is
not reversed: the balance is left reduced by the copy amount while the trade
list, the active index, and everything else are unchanged. -/
theorem claim_c10_non_atomic_open (s : Sys) (td : TradeData) (b amt : ℚ)
    (hmode : s.bot.status = "paper")
    (hb : s.store.balance = some b)
    (hfail : s.store.insert_fails = true)
    (hclamp : clamp_amount s.bot.params td.amount = some amt)
    (hle : amt ≤ b) :
    execute_trade s td =
      ({ s with
          store := { s.store with balance := some (b - amt) }
          debits := s.debits ++ [amt] }, none) := by
  unfold execute_trade
  rw [hclamp]
  simp only [if_pos hmode, execute_paper_trade, hb, if_neg (not_lt.mpr hle), wallet_sub,
    record_trade, hfail, if_true]

set_option maxRecDepth 40000 in
set_option maxHeartbeats 1000000 in
/-- C10 witness: a concrete failing INSERT leaves the wallet debited by 100
with no trade row and a null result. -/
theorem claim_c10_non_atomic_open_witness :
    execute_trade
        { exampleSys with store := { exampleStore with insert_fails := true } }
        ⟨"m", "Yes", 200, 3/5, 7, 7, "T"⟩ =
      ({ exampleSys with
          store := { exampleStore with insert_fails := true, balance := some (1000 - 100) }
          debits := [100] }, none) := by
  have h := claim_c10_non_atomic_open
    { exampleSys with store := { exampleStore with insert_fails := true } }
    ⟨"m", "Yes", 200, 3/5, 7, 7, "T"⟩ 1000 100 rfl rfl rfl
    (by with_unfolding_all decide) (by with_unfolding_all decide)
  exact h.trans (by with_unfolding_all decide)

/-! ## Close-path helpers and claims -/

/-- The row returned by the close path's `update_trade` call carries exactly
the written field set. -/
theorem update_trade_found (st : Store) (tid : ℚ) (u : TradeUpdate) (ct : Trade)
    (h : (update_trade st tid u).2 = some ct) :
    ct.trade_id = tid ∧ ct.status = u.status ∧ ct.closed_at = some u.closed_at ∧
    ct.exit_price = some u.exit_price ∧ ct.close_value = some u.close_value ∧
    ct.profit_loss = some u.profit_loss := by
  unfold update_trade at h
  dsimp only at h
  have hp := List.find?_some h
  have hmem := List.mem_of_find?_eq_some h
  obtain ⟨orig, -, heq⟩ := List.mem_map.mp hmem
  have hid : ct.trade_id = tid := of_decide_eq_true hp
  by_cases ho : orig.trade_id = tid
  · rw [if_pos ho] at heq
    subst heq
    exact ⟨hid, rfl, rfl, rfl, rfl, rfl⟩
  · rw [if_neg ho] at heq
    subst heq
    exact absurd hid ho

/-- Crediting the wallet never touches the debit log, the ghost initial
balance, or the bot. -/
theorem wallet_add_debits (s : Sys) (a : ℚ) :
    (wallet_add s a).debits = s.debits ∧
    (wallet_add s a).initial_balance = s.initial_balance ∧
    (wallet_add s a).bot = s.bot := by
  unfold wallet_add
  split <;> exact ⟨rfl, rfl, rfl⟩

/-- Crediting the wallet with the bot row present adds the amount to the
balance and appends it to the credit log. -/
theorem wallet_add_of_balance (s : Sys) (a b : ℚ) (hb : s.store.balance = some b) :
    (wallet_add s a).store.balance = some (b + a) ∧
    (wallet_add s a).credits = s.credits ++ [a] := by
  unfold wallet_add
  split
  next hnone => rw [hnone] at hb; cases hb
  next b2 hsome =>
    rw [hsome] at hb
    injection hb with hb
    subst hb
    exact ⟨rfl, rfl⟩

/-- Full characterization of a successful close: all four guards passed, the
entry price was nonzero, the returned row carries the share-based P&L
fields, and the wallet was credited with `amount + profit_loss` exactly when
that sum is positive. -/
theorem close_success (s : Sys) (tid px : ℚ) (s2 : Sys) (ct t : Trade)
    (hf : findActive s.bot tid = some t)
    (h : close_trade s tid px = (s2, some ct)) :
    0 < px ∧ px ≤ 1 ∧ t.price ≠ 0 ∧
    ct.trade_id = tid ∧ ct.status = "closed" ∧ ct.exit_price = some px ∧
    ct.close_value = some (t.amount / t.price * px) ∧
    ct.profit_loss = some (t.amount / t.price * px - t.amount) ∧
    s2.debits = s.debits ∧ s2.initial_balance = s.initial_balance ∧
    (∀ b, s.store.balance = some b →
      (0 < t.amount + (t.amount / t.price * px - t.amount) →
        s2.store.balance = some (b + (t.amount + (t.amount / t.price * px - t.amount))) ∧
        s2.credits = s.credits ++ [t.amount + (t.amount / t.price * px - t.amount)]) ∧
      (¬ 0 < t.amount + (t.amount / t.price * px - t.amount) →
        s2.store.balance = some b ∧ s2.credits = s.credits)) := by
  unfold close_trade at h
  simp only [hf] at h
  by_cases hbid : t.bot_id ≠ s.bot.id
  · rw [if_pos hbid] at h
    exact absurd (congrArg Prod.snd h).symm (by simp)
  · rw [if_neg hbid] at h
    by_cases hdb :
        ((get_bot_trades s.store s.bot.id (some 1000) (some "open")).any
          (fun u => decide (u.trade_id = tid))) = false
    · rw [if_pos hdb] at h
      exact absurd (congrArg Prod.snd h).symm (by simp)
    · rw [if_neg hdb] at h
      by_cases hpx : px ≤ 0 ∨ 1 < px
      · rw [if_pos hpx] at h
        exact absurd (congrArg Prod.snd h).symm (by simp)
      · rw [if_neg hpx] at h
        by_cases hp0 : t.price = 0
        · rw [if_pos hp0] at h
          exact absurd (congrArg Prod.snd h).symm (by simp)
        · rw [if_neg hp0] at h
          push_neg at hpx
          by_cases htr : 0 < t.amount + (t.amount / t.price * px - t.amount)
          · rw [if_pos htr] at h
            have h2 := congrArg Prod.snd h
            have h1 := congrArg Prod.fst h
            dsimp only at h1 h2
            obtain ⟨hctid, hst, -, hep, hcv, hpl⟩ := update_trade_found _ _ _ _ h2
            refine ⟨hpx.1, hpx.2, hp0, hctid, hst, hep, hcv, hpl, ?_, ?_, ?_⟩
            · rw [← h1]
              exact (wallet_add_debits _ _).1
            · rw [← h1]
              exact (wallet_add_debits _ _).2.1
            · intro b hb
              have hw := wallet_add_of_balance
                { s with store := (update_trade s.store tid
                    { status := "closed", closed_at := s.clock, exit_price := px,
                      close_value := t.amount / t.price * px,
                      profit_loss := t.amount / t.price * px - t.amount }).1 }
                (t.amount + (t.amount / t.price * px - t.amount)) b hb
              exact ⟨fun _ => ⟨h1 ▸ hw.1, h1 ▸ hw.2⟩, fun hn => absurd htr hn⟩
          · rw [if_neg htr] at h
            have h2 := congrArg Prod.snd h
            have h1 := congrArg Prod.fst h
            dsimp only at h1 h2
            obtain ⟨hctid, hst, -, hep, hcv, hpl⟩ := update_trade_found _ _ _ _ h2
            refine ⟨hpx.1, hpx.2, hp0, hctid, hst, hep, hcv, hpl, ?_, ?_, ?_⟩
            · rw [← h1]
              rfl
            · rw [← h1]
              rfl
            · intro b hb
              refine ⟨fun hp => absurd hp htr, fun _ => ⟨?_, ?_⟩⟩
              · rw [← h1]
                exact hb
              · rw [← h1]
                rfl

/-- Rejection conditions of `close_trade` as the spec lists them: unknown to
this bot's active index, owned by another bot, not re-confirmed open by the
store query, or an exit price outside (0, 1]. -/
def close_rejected (s : Sys) (tid px : ℚ) : Prop :=
  match findActive s.bot tid with
  | none => True
  | some t =>
    t.bot_id ≠ s.bot.id ∨
    (get_bot_trades s.store s.bot.id (some 1000) (some "open")).any
      (fun u => decide (u.trade_id = tid)) = false ∨
    px ≤ 0 ∨ 1 < px

/-- C1: under any rejection condition `close_trade` returns null, performs no
wallet mutation and no trade-row update (the store is untouched, as are the
ghost debit and credit logs), and leaves the bot unchanged except that in
the store-divergence case the entry is evicted from the active-trade
index — and exactly then. -/
theorem claim_c1_close_guards (s : Sys) (tid px : ℚ) (hrej : close_rejected s tid px) :
    (close_trade s tid px).2 = none ∧
    (close_trade s tid px).1.store = s.store ∧
    (close_trade s tid px).1.debits = s.debits ∧
    (close_trade s tid px).1.credits = s.credits ∧
    ((close_trade s tid px).1 = s ∨ (close_trade s tid px).1 = eraseActive s tid) ∧
    (∀ t2, findActive s.bot tid = some t2 → t2.bot_id = s.bot.id →
      (get_bot_trades s.store s.bot.id (some 1000) (some "open")).any
        (fun u => decide (u.trade_id = tid)) = false →
      (close_trade s tid px).1 = eraseActive s tid) := by
  unfold close_rejected at hrej
  cases hf : findActive s.bot tid with
  | none =>
    rw [hf] at hrej
    have hcl : close_trade s tid px = (s, none) := by
      unfold close_trade
      simp only [hf]
    refine ⟨by rw [hcl] <;> rfl, by rw [hcl] <;> rfl, by rw [hcl] <;> rfl, by rw [hcl] <;> rfl, Or.inl (by rw [hcl] <;> rfl), ?_⟩
    intro t2 ht2
    exact Option.noConfusion ht2
  | some t =>
    rw [hf] at hrej
    by_cases hbid : t.bot_id ≠ s.bot.id
    · have hcl : close_trade s tid px = (s, none) := by
        unfold close_trade
        simp only [hf]
        rw [if_pos hbid]
      refine ⟨by rw [hcl] <;> rfl, by rw [hcl] <;> rfl, by rw [hcl] <;> rfl, by rw [hcl] <;> rfl, Or.inl (by rw [hcl] <;> rfl), ?_⟩
      intro t2 ht2 hbid2
      injection ht2 with ht2
      subst ht2
      exact absurd hbid2 hbid
    · by_cases hdb :
          ((get_bot_trades s.store s.bot.id (some 1000) (some "open")).any
            (fun u => decide (u.trade_id = tid))) = false
      · have hcl : close_trade s tid px = (eraseActive s tid, none) := by
          unfold close_trade
          simp only [hf]
          rw [if_neg hbid, if_pos hdb]
        exact ⟨by rw [hcl] <;> rfl, by rw [hcl] <;> rfl, by rw [hcl] <;> rfl,
          by rw [hcl] <;> rfl, Or.inr (by rw [hcl] <;> rfl),
          fun _ _ _ _ => by rw [hcl] <;> rfl⟩
      · by_cases hpx : px ≤ 0 ∨ 1 < px
        · have hcl : close_trade s tid px = (s, none) := by
            unfold close_trade
            simp only [hf]
            rw [if_neg hbid, if_neg hdb, if_pos hpx]
          refine ⟨by rw [hcl] <;> rfl, by rw [hcl] <;> rfl, by rw [hcl] <;> rfl, by rw [hcl] <;> rfl, Or.inl (by rw [hcl] <;> rfl), ?_⟩
          intro t2 ht2 heq hdb2
          exact absurd hdb2 hdb
        · rcases hrej with hr | hr | hr | hr
          · exact absurd hr hbid
          · exact absurd hr hdb
          · exact absurd (Or.inl hr) hpx
          · exact absurd (Or.inr hr) hpx

/-- An open trade of this bot, mirrored in both the active index and the
store. -/
def exampleOpenTrade : Trade :=
  { trade_id := 5, bot_id := 1, is_paper_trade := true, market_id := "m", market_name := "T"
    outcome := "Yes", amount := 100, price := 3/5, status := "open", opened_at := 2
    closed_at := none, exit_price := none, close_value := none, profit_loss := none
    source_trade_id := 7, target_trade_id := 7 }

/-- A state whose active index holds a trade the store does not confirm as
open (store/index divergence). -/
def exampleSysDiverged : Sys :=
  { exampleSys with bot := { exampleBot with active_trades := [exampleOpenTrade] } }

set_option maxRecDepth 40000 in
set_option maxHeartbeats 1000000 in
/-- C1 witness: closing a trade the store does not confirm as open returns
null, leaves the store untouched, and evicts the index entry. -/
theorem claim_c1_close_guards_witness :
    (close_trade exampleSysDiverged 5 (1/2)).2 = none ∧
    (close_trade exampleSysDiverged 5 (1/2)).1.store = exampleSysDiverged.store ∧
    (close_trade exampleSysDiverged 5 (1/2)).1 = eraseActive exampleSysDiverged 5 := by
  have hrej : close_rejected exampleSysDiverged 5 (1/2) := by
    unfold close_rejected
    simp only [show findActive exampleSysDiverged.bot 5 = some exampleOpenTrade from by
      with_unfolding_all decide]
    exact Or.inr (Or.inl (by with_unfolding_all decide))
  have h := claim_c1_close_guards exampleSysDiverged 5 (1/2) hrej
  exact ⟨h.1, h.2.1, h.2.2.2.2.2 exampleOpenTrade (by with_unfolding_all decide) rfl
    (by with_unfolding_all decide)⟩

/-- C3: every successful close records `close_value = (amount / entry) ×
exit` and `profit_loss = close_value − amount`, equivalently `amount ×
(exit/entry − 1)`, computed from the indexed trade's amount and entry
price. -/
theorem claim_c3_pnl_identity (s : Sys) (tid px : ℚ) (s2 : Sys) (ct t : Trade)
    (hf : findActive s.bot tid = some t)
    (h : close_trade s tid px = (s2, some ct)) :
    ct.status = "closed" ∧ ct.exit_price = some px ∧
    ct.close_value = some (t.amount / t.price * px) ∧
    ct.profit_loss = some (t.amount / t.price * px - t.amount) ∧
    ct.profit_loss = some (t.amount * (px / t.price - 1)) := by
  obtain ⟨-, -, -, -, hst, hep, hcv, hpl, -⟩ := close_success s tid px s2 ct t hf h
  refine ⟨hst, hep, hcv, hpl, ?_⟩
  rw [hpl]
  congr 1
  ring

/-- State with the example trade open in both the index and the store, with
the wallet already debited by its amount. -/
def exampleSysOpen : Sys :=
  { exampleSys with
    bot := { exampleBot with active_trades := [exampleOpenTrade] }
    store := { exampleStore with trades := [exampleOpenTrade], balance := some 900 }
    debits := [100] }

/-- The row produced by closing the example trade at exit price 7/10. -/
def exampleClosedTrade : Trade :=
  { exampleOpenTrade with
    status := "closed"
    closed_at := some 1
    exit_price := some (7/10)
    close_value := some (350/3)
    profit_loss := some (50/3) }

set_option maxRecDepth 40000 in
set_option maxHeartbeats 1000000 in
/-- C3 witness: amount 100, entry 0.60, exit 0.70 yields profit 50/3 ≈ 16.67. -/
theorem claim_c3_pnl_identity_witness :
    (close_trade exampleSysOpen 5 (7/10)).2 = some exampleClosedTrade ∧
    Trade.profit_loss exampleClosedTrade =
      some (Trade.amount exampleOpenTrade * (7/10 / Trade.price exampleOpenTrade - 1)) ∧
    Trade.amount exampleOpenTrade * (7/10 / Trade.price exampleOpenTrade - 1) = 50/3 := by
  have h2 : (close_trade exampleSysOpen 5 (7/10)).2 = some exampleClosedTrade := by
    with_unfolding_all decide
  have hclose : close_trade exampleSysOpen 5 (7/10) =
      ((close_trade exampleSysOpen 5 (7/10)).1, some exampleClosedTrade) := by
    rw [← h2]
  have h := claim_c3_pnl_identity exampleSysOpen 5 (7/10)
    (close_trade exampleSysOpen 5 (7/10)).1 exampleClosedTrade exampleOpenTrade
    (by with_unfolding_all decide) hclose
  exact ⟨h2, h.2.2.2.2, by with_unfolding_all decide⟩

/-! ## Risk-monitor claims -/

/-- C7: for an open trade whose current price was fetched, with positive
amount and entry price, the stop-loss pass queues the trade for forced close
at the current price with reason stop_loss if and only if
`(current_value - amount) / amount * 100 ≤ -stop_loss_percentage`
(inclusive boundary), where `current_value = amount / entry * price`. -/
theorem claim_c7_stop_loss_boundary (p : Params) (priceOf : String → String → Option ℚ)
    (t : Trade) (cp : ℚ)
    (hp : priceOf t.market_id t.outcome = some cp)
    (hamt : 0 < t.amount) (hentry : 0 < t.price) :
    (stop_loss_check p priceOf t ≠ none ↔
      (t.amount / t.price * cp - t.amount) / t.amount * 100 ≤ -p.stop_loss_percentage) ∧
    (∀ q, stop_loss_check p priceOf t = some q → q = (t.trade_id, cp, "stop_loss")) := by
  unfold stop_loss_check
  rw [hp]
  dsimp only
  rw [if_pos hentry, if_pos hamt]
  constructor
  · constructor
    · intro hne
      by_contra hc
      rw [if_neg hc] at hne
      exact hne rfl
    · intro hc
      rw [if_pos hc]
      simp
  · intro q hq
    split at hq
    · injection hq with hq
      exact hq.symm
    · cases hq

set_option maxRecDepth 40000 in
set_option maxHeartbeats 1000000 in
/-- C7 witness: entry 0.60, amount 100, current price 0.54 gives exactly
-10% against the default 10% threshold, and the trade is queued (inclusive
boundary). -/
theorem claim_c7_stop_loss_boundary_witness :
    stop_loss_check exampleParams (fun _ _ => some (27/50)) exampleOpenTrade ≠ none ∧
    (∀ q, stop_loss_check exampleParams (fun _ _ => some (27/50)) exampleOpenTrade = some q →
      q = (Trade.trade_id exampleOpenTrade, 27/50, "stop_loss")) := by
  have h := claim_c7_stop_loss_boundary exampleParams (fun _ _ => some (27/50))
    exampleOpenTrade (27/50) rfl (by with_unfolding_all decide) (by with_unfolding_all decide)
  exact ⟨h.1.mpr (by with_unfolding_all decide), h.2⟩

/-- Daily losses as the spec phrases them, over an explicit trade list: sum
of `|profit_loss|` over closed trades with `closed_at` within the window and
negative `profit_loss`. -/
def spec_daily_loss_list (cutoff : ℚ) (ts : List Trade) : ℚ :=
  sumQ ((ts.filter (fun t =>
    decide (t.status = "closed") && t.closed_at.isSome &&
      decide (cutoff ≤ t.closed_at.getD 0) && decide (t.profit_loss.getD 0 < 0))).map
    (fun t => |t.profit_loss.getD 0|))

/-- Daily losses as claim C6 phrases them: the same sum over all of the
bot's trades in the store, with no row limit.  This follows the claim's
words, for comparison with the implementation's limited fetch. -/
def spec_daily_loss_all (st : Store) (bid : Nat) (cutoff : ℚ) : ℚ :=
  spec_daily_loss_list cutoff (st.trades.filter (fun t => decide (t.bot_id = bid)))

/-- The monitor's accumulation loop computes the spec-shaped sum whenever no
counted closed trade carries a NULL `profit_loss`. -/
theorem daily_loss_total_eq_spec (cutoff : ℚ) (ts : List Trade)
    (hnn : ∀ t ∈ ts, ¬(t.status = "closed" ∧ t.closed_at ≠ none ∧
      cutoff ≤ t.closed_at.getD 0 ∧ t.profit_loss = none)) :
    daily_loss_total cutoff ts = some (spec_daily_loss_list cutoff ts) := by
  induction ts with
  | nil => rfl
  | cons t ts ih =>
    have hnt := hnn t (List.mem_cons_self t ts)
    have ihr := ih (fun u hu => hnn u (List.mem_cons_of_mem t hu))
    rw [daily_loss_total, ihr]
    by_cases hcl : t.status = "closed"
    · cases hca : t.closed_at with
      | none =>
        simp [hcl, spec_daily_loss_list, List.filter_cons, hca]
      | some c =>
        by_cases hwin : c < cutoff
        · simp [hcl, hca, hwin, spec_daily_loss_list, List.filter_cons, not_le.mpr hwin]
        · cases hpl : t.profit_loss with
          | none =>
            exact absurd ⟨hcl, by rw [hca]; exact fun hx => Option.noConfusion hx,
              by rw [hca]; exact not_lt.mp hwin, hpl⟩ hnt
          | some pnl =>
            by_cases hneg : pnl < 0
            · simp [hcl, hca, hwin, hpl, hneg, spec_daily_loss_list, List.filter_cons,
                not_lt.mp hwin, sumQ]
            · simp [hcl, hca, hwin, hpl, hneg, spec_daily_loss_list, List.filter_cons,
                not_lt.mp hwin]
    · simp [hcl, spec_daily_loss_list, List.filter_cons]

/-- C6 amended: the monitor sums `|profit_loss|` over the closed,
trailing-24-hour, negative-P&L rows among the up-to-100 most recently
opened trades returned by the store query (not over all trades); when that
sum reaches `max_daily_loss` (inclusive boundary) the running bot is
stopped — running flag cleared, polling task cancelled, status set to
inactive in memory and in the store — and a note carrying the loss figure
is persisted; below the boundary, nothing changes. -/
theorem claim_c6_amended_daily_loss (s : Sys) (now total : ℚ)
    (hrun : s.bot.running = true)
    (hnn : ∀ t ∈ get_bot_trades s.store s.bot.id (some 100) none,
      ¬(t.status = "closed" ∧ t.closed_at ≠ none ∧
        now - 24 ≤ t.closed_at.getD 0 ∧ t.profit_loss = none))
    (htot : total =
      spec_daily_loss_list (now - 24) (get_bot_trades s.store s.bot.id (some 100) none)) :
    (s.bot.params.max_daily_loss ≤ total →
      (check_daily_loss_limit s now).bot.running = false ∧
      (check_daily_loss_limit s now).bot.status = "inactive" ∧
      (check_daily_loss_limit s now).bot.task = false ∧
      (check_daily_loss_limit s now).store.bot_status = "inactive" ∧
      (check_daily_loss_limit s now).store.bot_note = some total) ∧
    (total < s.bot.params.max_daily_loss → check_daily_loss_limit s now = s) := by
  have hdl := daily_loss_total_eq_spec (now - 24)
    (get_bot_trades s.store s.bot.id (some 100) none) hnn
  rw [← htot] at hdl
  constructor
  · intro hge
    have hcl : check_daily_loss_limit s now =
        { s with
          bot := stop s.bot
          store := { s.store with bot_status := "inactive", bot_note := some total } } := by
      unfold check_daily_loss_limit
      dsimp only
      simp only [hdl]
      rw [if_pos hge]
    rw [hcl]
    unfold stop
    rw [if_neg (by rw [hrun]; exact fun hx => Bool.noConfusion hx)]
    exact ⟨rfl, rfl, rfl, rfl, rfl⟩
  · intro hlt
    unfold check_daily_loss_limit
    dsimp only
    simp only [hdl]
    rw [if_neg (not_le.mpr hlt)]

/-- One closed losing trade per index, all inside the trailing window. -/
def lossTrade (i : Nat) : Trade :=
  { trade_id := (i : ℚ), bot_id := 1, is_paper_trade := true, market_id := "m"
    market_name := "T", outcome := "Yes", amount := 100, price := 1/2, status := "closed"
    opened_at := (i : ℚ), closed_at := some 25, exit_price := some (9/20)
    close_value := some 90, profit_loss := some (-10)
    source_trade_id := i, target_trade_id := i }

/-- A bot with 101 closed in-window losing trades of 10 each and a daily
loss limit of 1010 (the exact total across all 101 trades). -/
def sysC6 : Sys :=
  { exampleSys with
    bot := { exampleBot with params := { exampleParams with max_daily_loss := 1010 } }
    store := { exampleStore with trades := ((List.range 101).reverse).map lossTrade } }

set_option maxRecDepth 200000 in
set_option maxHeartbeats 2000000 in
/-- C6 counterexample: with 101 closed in-window losing trades the
claim-shaped sum over all trades reaches the 1010 limit, yet the monitor —
which fetches at most 100 rows — leaves the bot running and the state
entirely unchanged. -/
theorem claim_c6_counterexample :
    Params.max_daily_loss { exampleParams with max_daily_loss := 1010 } ≤
      spec_daily_loss_all sysC6.store 1 (26 - 24) ∧
    (check_daily_loss_limit sysC6 26).bot.running = true ∧
    check_daily_loss_limit sysC6 26 = sysC6 := by
  with_unfolding_all decide

/-- A bot with a single closed trade that lost exactly the daily limit. -/
def sysC6w : Sys :=
  { exampleSys with
    store := { exampleStore with trades := [{ lossTrade 0 with profit_loss := some (-1000) }] } }

set_option maxRecDepth 40000 in
set_option maxHeartbeats 1000000 in
/-- C6 witness: losses summing to exactly `max_daily_loss` suspend the bot
and persist the note (inclusive boundary). -/
theorem claim_c6_amended_witness :
    (check_daily_loss_limit sysC6w 26).bot.running = false ∧
    (check_daily_loss_limit sysC6w 26).bot.status = "inactive" ∧
    (check_daily_loss_limit sysC6w 26).bot.task = false ∧
    (check_daily_loss_limit sysC6w 26).store.bot_status = "inactive" ∧
    (check_daily_loss_limit sysC6w 26).store.bot_note = some 1000 := by
  have h := (claim_c6_amended_daily_loss sysC6w 26 1000 rfl
    (by with_unfolding_all decide) (by with_unfolding_all decide)).1
    (by with_unfolding_all decide)
  exact h

/-! ## Deduplication claims -/

/-- Sizing discard: an event whose scaled amount is below the minimum is
dropped with no state change (`execute_trade` lines 426-428). -/
theorem execute_trade_below_min (s : Sys) (td : TradeData)
    (h : td.amount * s.bot.params.copy_frac < s.bot.params.min_trade_value) :
    execute_trade s td = (s, none) := by
  simp only [execute_trade, clamp_amount, if_pos h]

/-- The event loop processes a concatenated feed by processing the two parts
in order and concatenating the invocation logs. -/
theorem poll_events_append : ∀ (xs ys : List Activity) (s : Sys),
    poll_events s (xs ++ ys) =
      ((poll_events (poll_events s xs).1 ys).1,
        (poll_events s xs).2 ++ (poll_events (poll_events s xs).1 ys).2) := by
  intro xs
  induction xs with
  | nil => intro ys s; simp [poll_events]
  | cons a xs ih =>
    intro ys s
    cases hx : a.txHash with
    | none =>
      simp only [List.cons_append, poll_events, hx]
      exact ih ys s
    | some h =>
      simp only [List.cons_append, poll_events, hx]
      by_cases hm : h ∈ s.bot.seen
      · rw [if_pos hm, if_pos hm]
        exact ih ys s
      · rw [if_neg hm, if_neg hm]
        by_cases hside : a.side ≠ "BUY"
        · rw [if_pos hside, if_pos hside]
          exact ih ys _
        · rw [if_neg hside, if_neg hside]
          dsimp only
          simp only [List.append_eq]
          rw [ih ys]
          simp

/-- Polling a feed of SELL events with pairwise-distinct, unseen hashes
appends exactly those hashes to the seen set, opens nothing, and invokes
`execute_trade` for none of them. -/
theorem poll_sell_run : ∀ (hs : List Nat) (s : Sys),
    (∀ x ∈ hs, x ∉ s.bot.seen) → hs.Nodup →
    poll_events s (hs.map sellAct) =
      ({ s with bot := { s.bot with seen := s.bot.seen ++ hs } }, []) := by
  intro hs
  induction hs with
  | nil => intro s h1 h2; simp [poll_events]
  | cons x xs ih =>
    intro s h1 h2
    simp only [List.map_cons, poll_events, show ∀ i, (sellAct i).txHash = some i from fun i => rfl]
    rw [if_neg (h1 x (List.mem_cons_self x xs)),
      if_pos (show (sellAct x).side ≠ "BUY" from by simp [sellAct])]
    have hms : markSeen s.bot x = { s.bot with seen := s.bot.seen ++ [x] } := by
      unfold markSeen
      rw [if_neg (h1 x (List.mem_cons_self x xs))]
    rw [hms]
    have hpre : ∀ y ∈ xs,
        y ∉ ({ s with bot := { s.bot with seen := s.bot.seen ++ [x] } } : Sys).bot.seen := by
      intro y hy
      simp only [List.mem_append, List.mem_singleton]
      push_neg
      exact ⟨h1 y (List.mem_cons_of_mem x hy),
        fun he => (List.nodup_cons.mp h2).1 (he ▸ hy)⟩
    rw [ih _ hpre (List.nodup_cons.mp h2).2]
    rw [List.append_cons s.bot.seen x xs]

/-- Processing an unseen BUY event whose open attempt leaves the state
unchanged: the hash is logged as an `execute_trade` invocation and marked
seen (with the size cap applied), and the loop continues. -/
theorem poll_buy_step (s : Sys) (h : Nat) (rest : List Activity)
    (hseen : h ∉ s.bot.seen)
    (hdisc : execute_trade s (trade_data_of (buyAct h) h) = (s, none)) :
    poll_events s (buyAct h :: rest) =
      ((poll_events { s with bot := capEvict (markSeen s.bot h) } rest).1,
        h :: (poll_events { s with bot := capEvict (markSeen s.bot h) } rest).2) := by
  simp only [poll_events, show (buyAct h).txHash = some h from rfl]
  rw [if_neg hseen, if_neg (show ¬((buyAct h).side ≠ "BUY") from by simp [buyAct])]
  rw [hdisc]

/-- The size cap is the identity while the seen set is within the 1000-entry
threshold. -/
theorem capEvict_id (b : BotState) (h : b.seen.length ≤ 1000) : capEvict b = b := by
  unfold capEvict
  rw [if_neg (not_lt.mpr h)]

/-- Within one poll cycle that never exceeds the seen-set cap, a hash already
in the seen set is never passed to `execute_trade` again, stays in the set,
and the set grows by at most one entry per event. -/
theorem poll_events_no_reprocess (h : Nat) : ∀ (feed : List Activity) (s : Sys),
    h ∈ s.bot.seen → s.bot.seen.length + feed.length ≤ 1000 →
    h ∉ (poll_events s feed).2 ∧ h ∈ (poll_events s feed).1.bot.seen ∧
    (poll_events s feed).1.bot.seen.length ≤ s.bot.seen.length + feed.length := by
  intro feed
  induction feed with
  | nil =>
    intro s hm hb
    simp only [poll_events]
    exact ⟨List.not_mem_nil h, hm, by simp⟩
  | cons a rest ih =>
    intro s hm hb
    simp only [List.length_cons] at hb
    cases hx : a.txHash with
    | none =>
      simp only [poll_events, hx]
      obtain ⟨i1, i2, i3⟩ := ih s hm (by omega)
      exact ⟨i1, i2, by simp only [List.length_cons]; omega⟩
    | some h2 =>
      simp only [poll_events, hx]
      by_cases hmem : h2 ∈ s.bot.seen
      · rw [if_pos hmem]
        obtain ⟨i1, i2, i3⟩ := ih s hm (by omega)
        exact ⟨i1, i2, by simp only [List.length_cons]; omega⟩
      · rw [if_neg hmem]
        have hne : h2 ≠ h := fun he => hmem (he ▸ hm)
        by_cases hside : a.side ≠ "BUY"
        · rw [if_pos hside]
          have hms : markSeen s.bot h2 = { s.bot with seen := s.bot.seen ++ [h2] } := by
            unfold markSeen
            rw [if_neg hmem]
          obtain ⟨i1, i2, i3⟩ := ih { s with bot := markSeen s.bot h2 }
            (by rw [hms]; exact List.mem_append.mpr (Or.inl hm))
            (by rw [hms]; simp only [List.length_append, List.length_singleton]; omega)
          refine ⟨i1, i2, le_trans i3 ?_⟩
          show (markSeen s.bot h2).seen.length + rest.length ≤
            s.bot.seen.length + (a :: rest).length
          rw [hms]
          simp only [List.length_append, List.length_singleton, List.length_cons,
            List.length_nil]
          omega
        · rw [if_neg hside]
          dsimp only
          have hs1 := (execute_trade_preserves s (trade_data_of a h2)).1
          have hms : markSeen (execute_trade s (trade_data_of a h2)).1.bot h2 =
              { (execute_trade s (trade_data_of a h2)).1.bot with
                seen := s.bot.seen ++ [h2] } := by
            unfold markSeen
            rw [if_neg (hs1 ▸ hmem), hs1]
          have hce : capEvict (markSeen (execute_trade s (trade_data_of a h2)).1.bot h2) =
              markSeen (execute_trade s (trade_data_of a h2)).1.bot h2 :=
            capEvict_id _
              (by rw [hms]; simp only [List.length_append, List.length_singleton]; omega)
          obtain ⟨i1, i2, i3⟩ := ih
            { (execute_trade s (trade_data_of a h2)).1 with
              bot := capEvict (markSeen (execute_trade s (trade_data_of a h2)).1.bot h2) }
            (by rw [hce, hms]; exact List.mem_append.mpr (Or.inl hm))
            (by rw [hce, hms]; simp only [List.length_append, List.length_singleton]; omega)
          refine ⟨?_, i2, le_trans i3 ?_⟩
          · simp only [List.mem_cons]
            push_neg
            exact ⟨fun he => hne he.symm, i1⟩
          · show (capEvict (markSeen (execute_trade s (trade_data_of a h2)).1.bot h2)).seen.length
                + rest.length ≤ s.bot.seen.length + (a :: rest).length
            rw [hce, hms]
            simp only [List.length_append, List.length_singleton, List.length_cons,
              List.length_nil]
            omega

/-- C5 amended: a transaction hash in the seen set is never passed to
`execute_trade` again across arbitrarily many poll cycles — provided the
seen set stays within its 1000-entry cap throughout, so the half-eviction
never fires.  (Once the eviction drops the hash, a still-present event is
re-executed; see the counterexample.) -/
theorem claim_c5_amended_dedup (s : Sys) (feeds : List (List Activity)) (h : Nat)
    (hmem : h ∈ s.bot.seen)
    (hbound : s.bot.seen.length + (feeds.map List.length).sum ≤ 1000) :
    h ∉ (poll_cycles s feeds).2 ∧ h ∈ (poll_cycles s feeds).1.bot.seen := by
  induction feeds generalizing s with
  | nil => exact ⟨List.not_mem_nil h, hmem⟩
  | cons feed feeds ih =>
    simp only [List.map_cons, List.sum_cons] at hbound
    simp only [poll_cycles]
    obtain ⟨i1, i2, i3⟩ := poll_events_no_reprocess h feed s hmem (by omega)
    obtain ⟨j1, j2⟩ := ih (poll_events s feed).1 i2 (by omega)
    refine ⟨?_, j2⟩
    simp only [List.mem_append]
    push_neg
    exact ⟨i1, j1⟩

/-- C5 amended witness: a hash already seen is skipped over two further
cycles carrying the same event. -/
theorem claim_c5_amended_witness :
    5 ∉ (poll_cycles { exampleSys with bot := { exampleBot with seen := [5] } }
      [[buyAct 5], [buyAct 5]]).2 ∧
    5 ∈ (poll_cycles { exampleSys with bot := { exampleBot with seen := [5] } }
      [[buyAct 5], [buyAct 5]]).1.bot.seen :=
  claim_c5_amended_dedup { exampleSys with bot := { exampleBot with seen := [5] } }
    [[buyAct 5], [buyAct 5]] 5 (by with_unfolding_all decide) (by with_unfolding_all decide)

/-- Dropping from the front of `range'` shifts its start. -/
theorem drop_range' : ∀ (m s n : Nat), m ≤ n →
    (List.range' s n).drop m = List.range' (s + m) (n - m) := by
  intro m
  induction m with
  | zero => intro s n h; simp
  | succ k ih =>
    intro s n h
    cases n with
    | zero => omega
    | succ n2 =>
      rw [List.range'_succ]
      simp only [List.drop_succ_cons]
      rw [ih (s + 1) n2 (by omega)]
      congr 1 <;> omega

/-- System state whose bot has exactly the given seen set. -/
def sysSeen (l : List Nat) : Sys :=
  { exampleSys with bot := { exampleBot with seen := l } }

/-- Cycle-A feed: a BUY with hash 0, then 1001 SELL events with fresh
hashes, then one more BUY — enough for the seen set to cross the 1000-entry
cap and evict hash 0. -/
def feedC5A : List Activity :=
  buyAct 0 :: ((List.range' 1 1001).map sellAct ++ [buyAct 1002])

/-- Cycle-B feed: the event with hash 0 is still present upstream. -/
def feedC5B : List Activity := [buyAct 0]

set_option maxRecDepth 100000 in
set_option maxHeartbeats 2000000 in
/-- C5 counterexample: hash 0 is passed to `execute_trade` and added to the
seen set in cycle A, but the size-cap eviction triggered later in the same
cycle drops it, and cycle B — with the same event still in the feed —
invokes `execute_trade` for hash 0 again. -/
theorem claim_c5_counterexample :
    0 ∈ (poll_events exampleSys (feedC5A.take 1)).1.bot.seen ∧
    0 ∈ (poll_events exampleSys feedC5A).2 ∧
    (poll_events (poll_events exampleSys feedC5A).1 feedC5B).2 = [0] := by
  have hb0 : (0 : Nat) ∉ exampleSys.bot.seen := by with_unfolding_all decide
  have hd0 : execute_trade exampleSys (trade_data_of (buyAct 0) 0) = (exampleSys, none) :=
    execute_trade_below_min _ _ (by with_unfolding_all decide)
  have hs1 : ({ exampleSys with bot := capEvict (markSeen exampleSys.bot 0) } : Sys) =
      sysSeen [0] := by with_unfolding_all decide
  have h1 : poll_events exampleSys feedC5A =
      ((poll_events (sysSeen [0]) ((List.range' 1 1001).map sellAct ++ [buyAct 1002])).1,
        0 :: (poll_events (sysSeen [0])
          ((List.range' 1 1001).map sellAct ++ [buyAct 1002])).2) := by
    rw [show feedC5A = buyAct 0 :: ((List.range' 1 1001).map sellAct ++ [buyAct 1002]) from rfl]
    rw [poll_buy_step exampleSys 0 _ hb0 hd0, hs1]
  have hlist : ([0] ++ List.range' 1 1001 : List Nat) = List.range' 0 1002 := by
    rw [show ([0] : List Nat) = List.range' 0 1 from rfl, List.range'_append]
  have h2 : poll_events (sysSeen [0]) ((List.range' 1 1001).map sellAct) =
      (sysSeen (List.range' 0 1002), []) := by
    rw [poll_sell_run (List.range' 1 1001) (sysSeen [0])
      (fun x hx => by
        show x ∉ ([0] : List Nat)
        simp only [List.mem_singleton]
        simp only [List.mem_range'] at hx
        omega)
      (List.nodup_range' 1 1001 1 Nat.one_pos)]
    show (sysSeen ([0] ++ List.range' 1 1001), ([] : List Nat)) = _
    rw [hlist]
  have hseen1002 : (1002 : Nat) ∉ (sysSeen (List.range' 0 1002)).bot.seen := by
    show (1002 : Nat) ∉ List.range' 0 1002
    simp only [List.mem_range']
    omega
  have hd2 : execute_trade (sysSeen (List.range' 0 1002))
      (trade_data_of (buyAct 1002) 1002) = (sysSeen (List.range' 0 1002), none) :=
    execute_trade_below_min _ _ (by with_unfolding_all decide)
  have hs3 : ({ sysSeen (List.range' 0 1002) with
      bot := capEvict (markSeen (sysSeen (List.range' 0 1002)).bot 1002) } : Sys) =
      sysSeen (List.range' 500 503) := by
    have hms : markSeen (sysSeen (List.range' 0 1002)).bot 1002 =
        { exampleBot with seen := List.range' 0 1002 ++ [1002] } := by
      unfold markSeen
      rw [if_neg hseen1002]
      rfl
    have happ : List.range' 0 1002 ++ [1002] = List.range' 0 1003 := by
      rw [show ([1002] : List Nat) = List.range' 1002 1 from rfl, List.range'_append]
    rw [hms, happ]
    unfold capEvict
    rw [if_pos (by simp only [List.length_range']; omega)]
    show ({ sysSeen (List.range' 0 1002) with
      bot := { exampleBot with seen := (List.range' 0 1003).drop 500 } } : Sys) = _
    rw [drop_range' 500 0 1003 (by omega)]
    rfl
  have h3 : poll_events (sysSeen (List.range' 0 1002)) [buyAct 1002] =
      (sysSeen (List.range' 500 503), [1002]) := by
    rw [poll_buy_step _ 1002 [] hseen1002 hd2, hs3]
    simp [poll_events]
  have hA : poll_events exampleSys feedC5A = (sysSeen (List.range' 500 503), [0, 1002]) := by
    rw [h1, poll_events_append, h2]
    dsimp only
    rw [h3]
    rfl
  have hA1 : poll_events exampleSys [buyAct 0] = (sysSeen [0], [0]) := by
    rw [poll_buy_step exampleSys 0 [] hb0 hd0, hs1]
    simp [poll_events]
  have hseen0 : (0 : Nat) ∉ (sysSeen (List.range' 500 503)).bot.seen := by
    show (0 : Nat) ∉ List.range' 500 503
    simp only [List.mem_range']
    omega
  have hd3 : execute_trade (sysSeen (List.range' 500 503)) (trade_data_of (buyAct 0) 0) =
      (sysSeen (List.range' 500 503), none) :=
    execute_trade_below_min _ _ (by with_unfolding_all decide)
  have hB : (poll_events (sysSeen (List.range' 500 503)) feedC5B).2 = [0] := by
    rw [show feedC5B = [buyAct 0] from rfl, poll_buy_step _ 0 [] hseen0 hd3]
    simp [poll_events]
  refine ⟨?_, ?_, ?_⟩
  · rw [show feedC5A.take 1 = [buyAct 0] from rfl, hA1]
    exact List.mem_singleton.mpr rfl
  · rw [hA]
    simp
  · rw [hA]
    exact hB

/-! ## Wallet conservation -/

/-- Summing a log extended by one entry. -/
theorem sumQ_append_single (l : List ℚ) (x : ℚ) : sumQ (l ++ [x]) = sumQ l + x := by
  simp [sumQ]

/-- Debiting the wallet preserves the accounting invariant. -/
theorem wallet_sub_invariant (s : Sys) (a : ℚ) (hw : wallet_invariant s) :
    wallet_invariant (wallet_sub s a) := by
  unfold wallet_sub
  split
  · exact hw
  next b hb =>
    intro b2 hb2
    injection hb2 with hb2
    subst hb2
    have hws := hw b hb
    have hsum : sumQ (s.debits ++ [a]) = sumQ s.debits + a := sumQ_append_single _ _
    dsimp only
    rw [hsum]
    linarith

/-- Crediting the wallet preserves the accounting invariant. -/
theorem wallet_add_invariant (s : Sys) (a : ℚ) (hw : wallet_invariant s) :
    wallet_invariant (wallet_add s a) := by
  unfold wallet_add
  split
  · exact hw
  next b hb =>
    intro b2 hb2
    injection hb2 with hb2
    subst hb2
    have hws := hw b hb
    have hsum : sumQ (s.credits ++ [a]) = sumQ s.credits + a := sumQ_append_single _ _
    dsimp only
    rw [hsum]
    linarith

/-- A failed paper open leaves either the original state (no balance, or an
insufficient one) or the debited state (INSERT raised after the debit). -/
theorem paper_open_fail (s : Sys) (td : TradeData) (amt : ℚ)
    (h : (execute_paper_trade s td amt).2 = none) :
    (execute_paper_trade s td amt).1 = s ∨
      (execute_paper_trade s td amt).1 = wallet_sub s amt := by
  cases hb : s.store.balance with
  | none => left; simp [execute_paper_trade, hb]
  | some b =>
    by_cases hlt : b < amt
    · left
      simp [execute_paper_trade, hb, hlt]
    · by_cases hf : s.store.insert_fails = true
      · right
        simp [execute_paper_trade, hb, hlt, record_trade, wallet_sub, hf]
      · exfalso
        simp [execute_paper_trade, hb, hlt, record_trade, wallet_sub, hf] at h

/-- The paper open path preserves the accounting invariant. -/
theorem execute_paper_invariant (s : Sys) (td : TradeData) (amt : ℚ)
    (hw : wallet_invariant s) : wallet_invariant (execute_paper_trade s td amt).1 := by
  cases hr : (execute_paper_trade s td amt).2 with
  | none =>
    rcases paper_open_fail s td amt hr with h | h <;> rw [h]
    · exact hw
    · exact wallet_sub_invariant s amt hw
  | some r =>
    have h : execute_paper_trade s td amt = ((execute_paper_trade s td amt).1, some r) := by
      rw [← hr]
    obtain ⟨b, hb, -, -, -, -, -, created, -, -, -, -, -, -, -, -, -, -, -, hbal, hdeb,
      hcred, hinit⟩ := paper_open_success _ _ _ _ _ h
    intro b2 hb2
    rw [hbal] at hb2
    injection hb2 with hb2
    subst hb2
    rw [hdeb, hcred, hinit, sumQ_append_single]
    have hws := hw b hb
    linarith

/-- `execute_trade` preserves the accounting invariant. -/
theorem execute_trade_invariant (s : Sys) (td : TradeData) (hw : wallet_invariant s) :
    wallet_invariant (execute_trade s td).1 := by
  unfold execute_trade
  split
  · exact hw
  next amt hc =>
    split
    · exact execute_paper_invariant s td amt hw
    · intro b hb
      exact hw b hb

/-- `close_trade` preserves the accounting invariant on every path. -/
theorem close_trade_invariant (s : Sys) (tid px : ℚ) (hw : wallet_invariant s) :
    wallet_invariant (close_trade s tid px).1 := by
  unfold close_trade
  split
  · exact hw
  next t hf =>
    split
    · exact hw
    · dsimp only
      split
      · intro b hb
        exact hw b hb
      · split
        · intro b hb
          exact hw b hb
        · split
          · intro b hb
            exact hw b hb
          · by_cases htr : 0 < t.amount + (t.amount / t.price * px - t.amount)
            · rw [if_pos htr]
              intro b hb
              exact wallet_add_invariant
                { s with store := (update_trade s.store tid
                    { status := "closed", closed_at := s.clock, exit_price := px,
                      close_value := t.amount / t.price * px,
                      profit_loss := t.amount / t.price * px - t.amount }).1 }
                (t.amount + (t.amount / t.price * px - t.amount))
                (fun b2 hb2 => hw b2 hb2) b hb
            · rw [if_neg htr]
              intro b hb
              exact hw b hb

/-- One poll cycle preserves the accounting invariant. -/
theorem poll_events_invariant : ∀ (feed : List Activity) (s : Sys), wallet_invariant s →
    wallet_invariant (poll_events s feed).1 := by
  intro feed
  induction feed with
  | nil => intro s hw; exact hw
  | cons a rest ih =>
    intro s hw
    cases hx : a.txHash with
    | none =>
      simp only [poll_events, hx]
      exact ih s hw
    | some h =>
      simp only [poll_events, hx]
      by_cases hm : h ∈ s.bot.seen
      · rw [if_pos hm]
        exact ih s hw
      · rw [if_neg hm]
        by_cases hside : a.side ≠ "BUY"
        · rw [if_pos hside]
          exact ih _ (fun b hb => hw b hb)
        · rw [if_neg hside]
          dsimp only
          exact ih _ (fun b hb => execute_trade_invariant s _ hw b hb)

/-- One monitor pass (queue computation plus sequential forced closes)
preserves the accounting invariant. -/
theorem monitor_positions_invariant (s : Sys) (f : String → String → Option ℚ)
    (hw : wallet_invariant s) : wallet_invariant (monitor_positions s f) := by
  unfold monitor_positions
  split
  · exact hw
  · have hfold : ∀ (q : List (ℚ × ℚ × String)) (s0 : Sys), wallet_invariant s0 →
        wallet_invariant (q.foldl (fun acc x => (close_trade acc x.1 x.2.1).1) s0) := by
      intro q
      induction q with
      | nil => intro s0 hw0; exact hw0
      | cons x q ih => intro s0 hw0; exact ih _ (close_trade_invariant s0 x.1 x.2.1 hw0)
    exact hfold _ s hw

/-- The daily loss-limit pass preserves the accounting invariant (it never
touches the balance or the ghost logs). -/
theorem check_daily_loss_limit_invariant (s : Sys) (now : ℚ) (hw : wallet_invariant s) :
    wallet_invariant (check_daily_loss_limit s now) := by
  unfold check_daily_loss_limit
  dsimp only
  split
  · exact hw
  · split
    · intro b hb
      exact hw b hb
    · exact hw

/-- Every trace of trading-loop operations preserves the accounting
invariant. -/
theorem run_invariant : ∀ (cmds : List Cmd) (s : Sys), wallet_invariant s →
    wallet_invariant (run s cmds) := by
  intro cmds
  induction cmds with
  | nil => intro s hw; exact hw
  | cons c cs ih =>
    intro s hw
    unfold run
    refine ih _ ?_
    cases c with
    | openT td => exact execute_trade_invariant s td hw
    | closeT tid px => exact close_trade_invariant s tid px hw
    | pollT feed => exact poll_events_invariant feed s hw
    | monitorT f => exact monitor_positions_invariant s f hw
    | limitT now => exact check_daily_loss_limit_invariant s now hw

/-- C2: opening a paper trade debits the wallet by exactly the copy amount
and records exactly that debit; a successful close of a positive trade
credits back exactly `amount + profit_loss` and records exactly that
credit; and along every trace of loop operations the sum of debits minus
the sum of credits equals `initial_balance - current_balance` — in
particular at any state with no open trades. -/
theorem claim_c2_wallet_conservation :
    (∀ s td s2 r, s.bot.status = "paper" → execute_trade s td = (s2, some r) →
      s2.debits = s.debits ++ [r.amount] ∧ s2.credits = s.credits ∧
      ∀ b, s.store.balance = some b → s2.store.balance = some (b - r.amount)) ∧
    (∀ s tid px s2 ct t b pl, close_trade s tid px = (s2, some ct) →
      findActive s.bot tid = some t → s.store.balance = some b →
      0 < t.amount → 0 < t.price → ct.profit_loss = some pl →
      s2.credits = s.credits ++ [t.amount + pl] ∧ s2.debits = s.debits ∧
      s2.store.balance = some (b + (t.amount + pl))) ∧
    (∀ s cmds, wallet_invariant s → wallet_invariant (run s cmds)) := by
  refine ⟨?_, ?_, fun s cmds hw => run_invariant cmds s hw⟩
  · intro s td s2 r hmode h
    unfold execute_trade at h
    cases hc : clamp_amount s.bot.params td.amount with
    | none => rw [hc] at h; exact absurd (congrArg Prod.snd h).symm (by simp)
    | some amt =>
      simp only [hc] at h
      rw [if_pos hmode] at h
      obtain ⟨b, hb, -, -, -, -, hra, created, -, -, -, -, -, -, -, -, -, -, -, hbal,
        hdeb, hcred, -⟩ := paper_open_success _ _ _ _ _ h
      rw [hra]
      refine ⟨hdeb, hcred, ?_⟩
      intro b2 hb2
      rw [hb] at hb2
      injection hb2 with hb2
      subst hb2
      exact hbal
  · intro s tid px s2 ct t b pl h hf hb hamt hprice hpl
    obtain ⟨hpx, -, -, -, -, -, -, hplrow, -, -, hwallet⟩ := close_success s tid px s2 ct t hf h
    rw [hplrow] at hpl
    injection hpl with hpl
    subst hpl
    have hev : t.amount + (t.amount / t.price * px - t.amount) = t.amount / t.price * px := by
      ring
    have htr : 0 < t.amount + (t.amount / t.price * px - t.amount) := by
      rw [hev]
      exact mul_pos (div_pos hamt hprice) hpx
    obtain ⟨hpos, -⟩ := hwallet b hb
    obtain ⟨hbal, hcred⟩ := hpos htr
    exact ⟨hcred, (close_success s tid px s2 ct t hf h).2.2.2.2.2.2.2.2.1, hbal⟩

set_option maxRecDepth 40000 in
set_option maxHeartbeats 1000000 in
/-- C2 witness: the invariant holds along a concrete open-then-close trace
from the example state. -/
theorem claim_c2_wallet_conservation_witness :
    wallet_invariant (run exampleSys
      [Cmd.openT ⟨"m", "Yes", 200, 3/5, 7, 7, "T"⟩, Cmd.closeT 1 (7/10)]) :=
  claim_c2_wallet_conservation.2.2 exampleSys
    [Cmd.openT ⟨"m", "Yes", 200, 3/5, 7, 7, "T"⟩, Cmd.closeT 1 (7/10)]
    (fun b hb => by
      injection hb with hb
      subst hb
      simp [exampleSys, sumQ])

end BotForm
